import Mathlib

/-!
Verification of the MerkleKV storage layer.

Shallow embedding of the persistent (Sled-backed) storage engine and the
engine factory of the MerkleKV repository:

* `src/store/sled_engine.rs` — `SledEngine`: a durable key/value tree plus a
  bounded LRU cache, with the `KVEngineStoreTrait` operations `get`, `set`,
  `delete`, `increment`, `decrement`, `truncate`.
* `src/store/factory.rs` — `create_storage_engine` (unit translation from
  `StorageConfig` to `SledConfig`) and `create_storage_engine_simple`
  (string-named engine selection).
* `src/config.rs` — `StorageConfig`.

Modelling choices:

* The durable sled tree is an association list `List (String × Stored)`;
  a stored byte value is either valid UTF-8 text (`Stored.txt`) or invalid
  bytes (`Stored.bin`, which makes the decode in `get_internal` fail, as
  `String::from_utf8` does in the source).
* The LRU cache (`lru::LruCache`) is an association list with the
  most-recently-used entry at the front; `cachePut` follows
  `LruCache::put` (update-and-promote when present, evict the back entry
  when inserting at capacity), `cachePromote` follows the promotion done
  by `LruCache::get`, `cachePop` follows `LruCache::pop`.
* Sled I/O faults are injected through explicit `Bool` parameters on each
  operation (`false` = the underlying tree call succeeds).  Runs are
  sequential, so the cache mutex is always acquired (a `Mutex` cannot be
  poisoned in a single-threaded run) and the `if let Ok(mut cache)` guards
  in the source always take the `Ok` branch.
* Rust `i64` values are `Int` with wrap-around (`wrap64`) applied exactly
  where the source performs `i64` arithmetic; `usize` values are `Nat`
  with reduction modulo `2 ^ 64` (`usizeWrap`) where the source multiplies.
-/

set_option autoImplicit false

namespace MerkleKV

instance exceptDecEq {ε α : Type} [DecidableEq ε] [DecidableEq α] :
    DecidableEq (Except ε α) := fun x y =>
  match x, y with
  | Except.ok a, Except.ok b =>
    if h : a = b then isTrue (by rw [h]) else isFalse (by simp [h])
  | Except.ok _, Except.error _ => isFalse (by simp)
  | Except.error _, Except.ok _ => isFalse (by simp)
  | Except.error e, Except.error f =>
    if h : e = f then isTrue (by rw [h]) else isFalse (by simp [h])

/-- A value held by the durable sled tree: sled stores raw bytes, which the
engine decodes with `String::from_utf8`.  `txt s` is a valid-UTF-8 value,
`bin` stands for any byte string that is not valid UTF-8 (decoding it
fails). -/
inductive Stored where
  | txt : String → Stored
  | bin : Stored
deriving DecidableEq, Repr

/-- State of one `SledEngine` instance: the LRU cache capacity fixed at
construction (`NonZeroUsize` in the source), the cache contents
(most-recently-used first), and the durable tree contents. -/
structure SledState where
  cap : Nat
  cache : List (String × String)
  tree : List (String × Stored)
deriving DecidableEq, Repr

/-- Model of `tree.get(key)`: the value stored under `k` in the durable tree. -/
def treeFind (t : List (String × Stored)) (k : String) : Option Stored :=
  (t.find? (fun p => p.1 == k)).map (·.2)

/-- Model of `tree.insert(key, value)`: store `v` under `k`, replacing any previous
value. -/
def treeInsert (t : List (String × Stored)) (k : String) (v : Stored) :
    List (String × Stored) :=
  (k, v) :: t.filter (fun p => p.1 != k)

/-- Model of `tree.remove(key)`: drop the entry for `k`. -/
def treeRemove (t : List (String × Stored)) (k : String) :
    List (String × Stored) :=
  t.filter (fun p => p.1 != k)

/-- Whether the durable tree has an entry for `k`. -/
def containsT (t : List (String × Stored)) (k : String) : Bool :=
  t.any (fun p => p.1 == k)

/-- Peek the cached value for `k` (the lookup part of `LruCache::get`). -/
def cacheLookup (c : List (String × String)) (k : String) : Option String :=
  (c.find? (fun p => p.1 == k)).map (·.2)

/-- The recency update performed by a hitting `LruCache::get`: the entry
moves to the most-recently-used position. -/
def cachePromote (c : List (String × String)) (k v : String) :
    List (String × String) :=
  (k, v) :: c.filter (fun p => p.1 != k)

/-- Model of `LruCache::put(key, value)` with capacity `cap`: an existing key is
updated and promoted; a new key is inserted at the most-recently-used
position, evicting the least-recently-used entry (the back) when the cache
is full. -/
def cachePut (cap : Nat) (c : List (String × String)) (k v : String) :
    List (String × String) :=
  if (c.find? (fun p => p.1 == k)).isSome then
    (k, v) :: c.filter (fun p => p.1 != k)
  else if c.length == cap then
    (k, v) :: c.dropLast
  else
    (k, v) :: c

/-- Model of `LruCache::pop(key)`: remove the entry for `k` if present. -/
def cachePop (c : List (String × String)) (k : String) :
    List (String × String) :=
  c.filter (fun p => p.1 != k)

/-- Model of `SledEngine::get_internal`: check the cache first (a hit returns the
cached value and promotes it); on a miss read the durable tree
(`ioFault = true` models a sled read error), decode the bytes, populate the
cache on success.  Returns the `Result` together with the post-state. -/
def get_internal (s : SledState) (k : String) (ioFault : Bool) :
    Except String (Option String) × SledState :=
  match cacheLookup s.cache k with
  | some v => (Except.ok (some v), { s with cache := cachePromote s.cache k v })
  | none =>
    if ioFault then
      (Except.error ("Failed to get key " ++ k ++ " from database"), s)
    else
      match treeFind s.tree k with
      | some (Stored.txt v) =>
          (Except.ok (some v), { s with cache := cachePut s.cap s.cache k v })
      | some Stored.bin =>
          (Except.error ("Invalid UTF-8 in value for key " ++ k), s)
      | none => (Except.ok none, s)

/-- Model of `SledEngine::set_internal`: put into the cache first, then insert into
the durable tree (`ioFault = true` models a sled write error, which is
propagated after the cache was already updated). -/
def set_internal (s : SledState) (k v : String) (ioFault : Bool) :
    Except String Unit × SledState :=
  let s1 : SledState := { s with cache := cachePut s.cap s.cache k v }
  if ioFault then
    (Except.error ("Failed to set key " ++ k ++ " in database"), s1)
  else
    (Except.ok (), { s1 with tree := treeInsert s1.tree k (Stored.txt v) })

/-- Model of `SledEngine::delete_internal`: pop from the cache first, then remove
from the durable tree; the returned `bool` is whether the tree had the key
(`result.is_some()`). -/
def delete_internal (s : SledState) (k : String) (ioFault : Bool) :
    Except String Bool × SledState :=
  let s1 : SledState := { s with cache := cachePop s.cache k }
  if ioFault then
    (Except.error ("Failed to delete key " ++ k ++ " from database"), s1)
  else
    (Except.ok (containsT s1.tree k), { s1 with tree := treeRemove s1.tree k })

/-- Trait `get`: any internal error is logged and downgraded to `none`. -/
def get (s : SledState) (k : String) (ioFault : Bool) :
    Option String × SledState :=
  match get_internal s k ioFault with
  | (Except.ok v, s') => (v, s')
  | (Except.error _, s') => (none, s')

/-- Trait `set`: forwards `set_internal`, propagating errors. -/
def set (s : SledState) (k v : String) (ioFault : Bool) :
    Except String Unit × SledState :=
  set_internal s k v ioFault

/-- Trait `delete`: any internal error is logged and downgraded to
`false`. -/
def delete (s : SledState) (k : String) (ioFault : Bool) :
    Bool × SledState :=
  match delete_internal s k ioFault with
  | (Except.ok b, s') => (b, s')
  | (Except.error _, s') => (false, s')

/-- Model of `SledEngine::truncate`: clear the cache, then clear the durable tree
(`clearFault = true` models `tree.clear()` failing, after the cache was
already emptied). -/
def truncate (s : SledState) (clearFault : Bool) :
    Except String Unit × SledState :=
  let s1 : SledState := { s with cache := [] }
  if clearFault then
    (Except.error "Failed to clear database", s1)
  else
    (Except.ok (), { s1 with tree := [] })

/-- Rust `str::parse::<i64>`: an optional sign followed by at least one
ASCII digit, rejecting values outside the `i64` range. -/
def parseI64 (str : String) : Option Int :=
  let p : Int × List Char :=
    match str.data with
    | '+' :: rest => (1, rest)
    | '-' :: rest => (-1, rest)
    | rest => (1, rest)
  if p.2.isEmpty then none
  else if p.2.all (fun c => c.isDigit) then
    let n : Nat := p.2.foldl (fun acc c => acc * 10 + (c.toNat - 48)) 0
    let v : Int := p.1 * n
    if -(2 ^ 63) ≤ v ∧ v < 2 ^ 63 then some v else none
  else none

/-- Predicate that `n` fits in a Rust `i64`. -/
def inI64 (n : Int) : Prop := -(2 ^ 63) ≤ n ∧ n < 2 ^ 63

instance inI64Decidable (n : Int) : Decidable (inI64 n) :=
  inferInstanceAs (Decidable (-(2 ^ 63) ≤ n ∧ n < 2 ^ 63))

/-- Two's-complement wrap-around of `i64` arithmetic (release-mode Rust). -/
def wrap64 (n : Int) : Int := (n + 2 ^ 63) % 2 ^ 64 - 2 ^ 63

/-- The Rust expression
`match self.get(key) { Some(value) => value.parse::<i64>().unwrap_or(0), None => 0 }`
shared by `increment` and `decrement`. -/
def parseOr0 (o : Option String) : Int :=
  match o with
  | some v => (parseI64 v).getD 0
  | none => 0

/-- The current numeric value `increment`/`decrement` start from: the trait
`get`, parsed as `i64`, with a missing or unparsable value treated as 0. -/
def currentOf (s : SledState) (k : String) : Int :=
  parseOr0 (get s k false).1

/-- Model of `SledEngine::increment`: trait `get`, parse-or-zero, add the amount
(default 1), store the textual result via `set`, return the new value. -/
def increment (s : SledState) (k : String) (amount : Option Int)
    (getFault setFault : Bool) : Except String Int × SledState :=
  let incrementBy := amount.getD 1
  let r := get s k getFault
  let currentValue : Int := parseOr0 r.1
  let newValue := wrap64 (currentValue + incrementBy)
  let w := set r.2 k (toString newValue) setFault
  (match w.1 with
   | Except.ok _ => Except.ok newValue
   | Except.error e => Except.error e, w.2)

/-- Model of `SledEngine::decrement`: symmetric to `increment`, subtracting the
amount. -/
def decrement (s : SledState) (k : String) (amount : Option Int)
    (getFault setFault : Bool) : Except String Int × SledState :=
  let decrementBy := amount.getD 1
  let r := get s k getFault
  let currentValue : Int := parseOr0 r.1
  let newValue := wrap64 (currentValue - decrementBy)
  let w := set r.2 k (toString newValue) setFault
  (match w.1 with
   | Except.ok _ => Except.ok newValue
   | Except.error e => Except.error e, w.2)

/-- An engine freshly opened on an empty database. -/
def freshState (cap : Nat) : SledState := ⟨cap, [], []⟩

/-! ## Construction and factory (`SledEngine::with_config`,
`src/store/factory.rs`, `src/config.rs`) -/

/-- Record `SledConfig` from `src/store/sled_engine.rs`. -/
structure SledConfig where
  compression : Bool
  cache_size : Nat
  flush_interval_ms : Nat
  max_db_size : Nat
deriving DecidableEq, Repr

/-- Value of `SledConfig::default()`. -/
def SledConfig.default : SledConfig :=
  { compression := true
    cache_size := 1000
    flush_interval_ms := 1000
    max_db_size := 1024 * 1024 * 1024 }

/-- Model of `NonZeroUsize::new`. -/
def nonZeroUsizeNew (n : Nat) : Option Nat :=
  if n = 0 then none else some n

/-- Model of `SledEngine::with_config`: open the database (`openFault`), open the
tree (`treeFault`), check the cache capacity with `NonZeroUsize::new`, and
build the engine.  `tree0` is whatever the reopened tree already holds. -/
def with_config (openFault treeFault : Bool)
    (tree0 : List (String × Stored)) (config : SledConfig) :
    Except String SledState :=
  if openFault then
    Except.error "Failed to open Sled database"
  else if treeFault then
    Except.error "Failed to open Sled tree"
  else
    match nonZeroUsizeNew config.cache_size with
    | none => Except.error "Cache size must be greater than 0"
    | some cacheSize => Except.ok ⟨cacheSize, [], tree0⟩

/-- Enum `StorageEngine` from `src/config.rs`. -/
inductive StorageEngine where
  | memory
  | rwlock
  | sled
deriving DecidableEq, Repr

/-- Record `StorageConfig` from `src/config.rs`. -/
structure StorageConfig where
  engine : StorageEngine
  path : String
  compression : Bool
  cache_size_mb : Nat
  flush_interval_ms : Nat
  max_db_size_mb : Nat
deriving DecidableEq, Repr

/-- Value of `StorageConfig::default()`. -/
def StorageConfig.default : StorageConfig :=
  { engine := StorageEngine.rwlock
    path := "data"
    compression := true
    cache_size_mb := 100
    flush_interval_ms := 1000
    max_db_size_mb := 1024 }

/-- Reduction modulo `2 ^ 64`: release-mode wrap-around of Rust `usize`
multiplication. -/
def usizeWrap (n : Nat) : Nat := n % 2 ^ 64

/-- The `SledConfig` that `create_storage_engine` builds for the `Sled`
variant: `cache_size = cache_size_mb * 1024 * 1024 / 1024` then
`.max(100)`, and `max_db_size = max_db_size_mb * 1024 * 1024`. -/
def sledConfigOf (config : StorageConfig) : SledConfig :=
  let cache_size := usizeWrap (config.cache_size_mb * 1024 * 1024) / 1024
  let max_db_size := usizeWrap (config.max_db_size_mb * 1024 * 1024)
  { compression := config.compression
    cache_size := Nat.max cache_size 100
    flush_interval_ms := config.flush_interval_ms
    max_db_size := max_db_size }

/-- What `create_storage_engine` constructs (engine construction itself
modelled fault-free: the in-memory engines live in `kv_engine.rs` /
`rwlock_engine.rs`, outside the files under verification, and never fail
without an I/O fault). -/
inductive Engine where
  | memory (path : String)
  | rwlock (path : String)
  | sled (path : String) (state : SledState) (config : SledConfig)
deriving DecidableEq, Repr

/-- Model of `create_storage_engine` (fault-free run): dispatch on the engine
variant; the `Sled` arm performs the unit translation `sledConfigOf` and
calls `with_config`. -/
def create_storage_engine (config : StorageConfig) : Except String Engine :=
  match config.engine with
  | StorageEngine.memory => Except.ok (Engine.memory config.path)
  | StorageEngine.rwlock => Except.ok (Engine.rwlock config.path)
  | StorageEngine.sled =>
    let sled_config := sledConfigOf config
    match with_config false false [] sled_config with
    | Except.ok st => Except.ok (Engine.sled config.path st sled_config)
    | Except.error e => Except.error e

/-- ASCII-faithful model of Rust `str::to_lowercase` (the engine names
compared against are all ASCII). -/
def strToLower (s : String) : String := String.mk (s.data.map Char.toLower)

/-- Model of `create_storage_engine_simple`: lowercase the engine name, accept
exactly `"memory" | "kv"`, `"rwlock"`, `"sled"`, otherwise return the
enumerated-choices error; on a match, build a default-tuned
`StorageConfig` of that kind and call `create_storage_engine`. -/
def create_storage_engine_simple (engine_type storage_path : String) :
    Except String Engine :=
  let lower := strToLower engine_type
  if lower = "memory" ∨ lower = "kv" then
    create_storage_engine
      { StorageConfig.default with
          engine := StorageEngine.memory, path := storage_path }
  else if lower = "rwlock" then
    create_storage_engine
      { StorageConfig.default with
          engine := StorageEngine.rwlock, path := storage_path }
  else if lower = "sled" then
    create_storage_engine
      { StorageConfig.default with
          engine := StorageEngine.sled, path := storage_path }
  else
    Except.error ("Unknown engine type: " ++ engine_type ++
      ". Available engines: memory, rwlock, sled")

/-- Boolean discriminator for `Except` success. -/
def exOk {α : Type} (e : Except String α) : Bool :=
  match e with
  | Except.ok _ => true
  | Except.error _ => false

/-- The cache-subset invariant of the persistent backend: every key held by
the bounded cache is also present in the durable tree. -/
def cacheSubTree (s : SledState) : Bool :=
  s.cache.all (fun p => containsT s.tree p.1)

/-- A small concrete engine state used to instantiate universally
quantified results: one cached key `"a"` backed by the durable tree. -/
def sAB : SledState := ⟨2, [("a", "1")], [("a", Stored.txt "1")]⟩

/-! ## Basic lemmas about the cache and tree primitives -/

theorem cacheLookup_cons_self (c : List (String × String)) (k v : String) :
    cacheLookup ((k, v) :: c) k = some v := by
  unfold cacheLookup
  rw [List.find?_cons_of_pos _ (by simp)]
  rfl

theorem cacheLookup_cachePut_self (cap : Nat) (c : List (String × String))
    (k v : String) : cacheLookup (cachePut cap c k v) k = some v := by
  unfold cachePut
  split
  · exact cacheLookup_cons_self _ k v
  split
  · exact cacheLookup_cons_self _ k v
  · exact cacheLookup_cons_self _ k v

theorem find?_beq_filter_bne {β : Type} (l : List (String × β)) (k : String) :
    List.find? (fun p => p.1 == k) (l.filter (fun p => p.1 != k)) = none := by
  rw [List.find?_eq_none]
  intro x hx
  have h2 := (List.mem_filter.mp hx).2
  simp only [bne_iff_ne] at h2
  simp [h2]

theorem cacheLookup_cachePop_self (c : List (String × String)) (k : String) :
    cacheLookup (cachePop c k) k = none := by
  unfold cacheLookup cachePop
  rw [find?_beq_filter_bne]
  rfl

theorem treeFind_treeRemove_self (t : List (String × Stored)) (k : String) :
    treeFind (treeRemove t k) k = none := by
  unfold treeFind treeRemove
  rw [find?_beq_filter_bne]
  rfl

theorem treeFind_treeInsert_self (t : List (String × Stored)) (k : String)
    (v : Stored) : treeFind (treeInsert t k v) k = some v := by
  unfold treeFind treeInsert
  rw [List.find?_cons_of_pos _ (by simp)]
  rfl

theorem containsT_treeRemove_self (t : List (String × Stored)) (k : String) :
    containsT (treeRemove t k) k = false := by
  unfold containsT treeRemove
  rw [Bool.eq_false_iff]
  intro h
  rcases List.any_eq_true.mp h with ⟨p, hp, hpk⟩
  have h2 := (List.mem_filter.mp hp).2
  simp only [bne_iff_ne] at h2
  exact h2 (by simpa using hpk)

/-! ## Equation lemmas for the fault-free operations -/

theorem set_false_eq (s : SledState) (k v : String) :
    set s k v false =
      (Except.ok (),
        ⟨s.cap, cachePut s.cap s.cache k v, treeInsert s.tree k (Stored.txt v)⟩) :=
  rfl

theorem delete_false_eq (s : SledState) (k : String) :
    delete s k false =
      (containsT s.tree k, ⟨s.cap, cachePop s.cache k, treeRemove s.tree k⟩) :=
  rfl

theorem delete_true_eq (s : SledState) (k : String) :
    delete s k true = (false, ⟨s.cap, cachePop s.cache k, s.tree⟩) :=
  rfl

theorem truncate_true_eq (s : SledState) :
    truncate s true =
      (Except.error "Failed to clear database", ⟨s.cap, [], s.tree⟩) :=
  rfl

theorem get_after_set_fst (s : SledState) (k v : String) :
    (get (set s k v false).2 k false).1 = some v := by
  rw [set_false_eq]
  simp [get, get_internal, cacheLookup_cachePut_self]

/-- C1: on the persistent engine, in a sequential fault-free run,
`set(k, v)` followed by `get(k)` returns `Some(v)` for every prior state,
key and value (the freshly written entry sits at the front of the cache, so
the read path serves it). -/
theorem set_then_get_returns_value (s : SledState) (k v : String) :
    (get (set s k v false).2 k false).1 = some v :=
  get_after_set_fst s k v

/-- C7: `delete(k)` returns exactly the durable tree's prior membership of
`k` (independently of the cache), removes `k` from the tree, returns
`false` when repeated, a subsequent `get(k)` returns `None`, and a fault
during deletion is reported as `false` rather than an error. -/
theorem delete_iff_tree_had_key (s : SledState) (k : String) :
    (delete s k false).1 = containsT s.tree k ∧
    (delete s k false).2.tree = treeRemove s.tree k ∧
    (delete (delete s k false).2 k false).1 = false ∧
    (get (delete s k false).2 k false).1 = none ∧
    (delete s k true).1 = false := by
  refine ⟨rfl, rfl, ?_, ?_, rfl⟩
  · rw [delete_false_eq, delete_false_eq]
    exact containsT_treeRemove_self s.tree k
  · rw [delete_false_eq]
    simp [get, get_internal, cacheLookup_cachePop_self, treeFind_treeRemove_self]

/-- C9: `truncate` clears the bounded cache before clearing the durable
tree, so when clearing the tree fails `truncate` returns the error while
the cache has already been emptied and the tree is untouched — the
observable state changed despite the error result (whenever the cache was
nonempty). -/
theorem truncate_not_atomic_on_error (s : SledState) (h : s.cache ≠ []) :
    (truncate s true).1 = Except.error "Failed to clear database" ∧
    (truncate s true).2.cache = [] ∧
    (truncate s true).2.tree = s.tree ∧
    (truncate s true).2 ≠ s := by
  refine ⟨rfl, rfl, rfl, ?_⟩
  intro he
  apply h
  have h2 : (truncate s true).2.cache = s.cache := by rw [he]
  exact h2.symm

theorem truncate_not_atomic_on_error_witness :
    sAB.cache ≠ [] ∧
    ((truncate sAB true).1 = Except.error "Failed to clear database" ∧
      (truncate sAB true).2.cache = [] ∧
      (truncate sAB true).2.tree = sAB.tree ∧
      (truncate sAB true).2 ≠ sAB) :=
  ⟨by decide, truncate_not_atomic_on_error sAB (by decide)⟩

/-- C10: `get` never modifies the durable tree (nor the capacity); the only
state it may change is the cache, and a `get` of a key absent from both the
cache and the tree leaves the engine state entirely unchanged. -/
theorem get_frame_property (s : SledState) (k : String) (f : Bool) :
    (get s k f).2.tree = s.tree ∧
    (get s k f).2.cap = s.cap ∧
    (cacheLookup s.cache k = none → treeFind s.tree k = none →
      (get s k f).2 = s) := by
  cases hc : cacheLookup s.cache k with
  | some v =>
    have hst : (get s k f).2 = { s with cache := cachePromote s.cache k v } := by
      simp [get, get_internal, hc]
    rw [hst]
    exact ⟨rfl, rfl, fun hn => Option.noConfusion hn⟩
  | none =>
    cases f with
    | true =>
      have hst : (get s k true).2 = s := by simp [get, get_internal, hc]
      rw [hst]
      exact ⟨rfl, rfl, fun _ _ => rfl⟩
    | false =>
      cases ht : treeFind s.tree k with
      | none =>
        have hst : (get s k false).2 = s := by simp [get, get_internal, hc, ht]
        rw [hst]
        exact ⟨rfl, rfl, fun _ _ => rfl⟩
      | some st =>
        cases st with
        | txt v =>
          have hst : (get s k false).2 =
              { s with cache := cachePut s.cap s.cache k v } := by
            simp [get, get_internal, hc, ht]
          rw [hst]
          exact ⟨rfl, rfl, fun _ hn => Option.noConfusion hn⟩
        | bin =>
          have hst : (get s k false).2 = s := by simp [get, get_internal, hc, ht]
          rw [hst]
          exact ⟨rfl, rfl, fun _ _ => rfl⟩

/-! ## The cache-subset invariant (C2) -/

theorem subset_of_mem_cachePut {cap : Nat} {c : List (String × String)}
    {k v : String} {p : String × String} (h : p ∈ cachePut cap c k v) :
    p = (k, v) ∨ p ∈ c := by
  unfold cachePut at h
  split at h
  · rcases List.mem_cons.mp h with h1 | h1
    · exact Or.inl h1
    · exact Or.inr (List.mem_filter.mp h1).1
  split at h
  · rcases List.mem_cons.mp h with h1 | h1
    · exact Or.inl h1
    · exact Or.inr ((List.dropLast_sublist c).subset h1)
  · rcases List.mem_cons.mp h with h1 | h1
    · exact Or.inl h1
    · exact Or.inr h1

theorem subset_of_mem_cachePromote {c : List (String × String)}
    {k v : String} {p : String × String} (h : p ∈ cachePromote c k v) :
    p = (k, v) ∨ p ∈ c := by
  unfold cachePromote at h
  rcases List.mem_cons.mp h with h1 | h1
  · exact Or.inl h1
  · exact Or.inr (List.mem_filter.mp h1).1

theorem containsT_of_treeFind {t : List (String × Stored)} {k : String}
    {v : Stored} (h : treeFind t k = some v) : containsT t k = true := by
  unfold treeFind at h
  unfold containsT
  rcases Option.map_eq_some'.mp h with ⟨p, hp, _⟩
  refine List.any_eq_true.mpr ⟨p, List.mem_of_find?_eq_some hp, ?_⟩
  have h2 := List.find?_some hp
  simpa using h2

theorem cacheLookup_some_key {c : List (String × String)} {k v : String}
    (h : cacheLookup c k = some v) : (k, v) ∈ c := by
  unfold cacheLookup at h
  rcases Option.map_eq_some'.mp h with ⟨p, hp, hv⟩
  obtain ⟨a, b⟩ := p
  have hk : a = k := by simpa using List.find?_some hp
  have hv2 : b = v := hv
  have hm := List.mem_of_find?_eq_some hp
  subst hk
  subst hv2
  exact hm

theorem containsT_treeInsert_of {t : List (String × Stored)} {x k : String}
    {v : Stored} (h : containsT t x = true) :
    containsT (treeInsert t k v) x = true := by
  unfold containsT at h ⊢
  unfold treeInsert
  rcases List.any_eq_true.mp h with ⟨p, hp, hpx⟩
  by_cases hk : p.1 = k
  · apply List.any_eq_true.mpr
    refine ⟨(k, v), List.mem_cons_self _ _, ?_⟩
    show (k == x) = true
    rw [← hk]
    exact hpx
  · apply List.any_eq_true.mpr
    refine ⟨p, List.mem_cons_of_mem _ (List.mem_filter.mpr ⟨hp, ?_⟩), hpx⟩
    exact bne_iff_ne.mpr hk

theorem containsT_treeRemove_of {t : List (String × Stored)} {x k : String}
    (h : containsT t x = true) (hne : x ≠ k) :
    containsT (treeRemove t k) x = true := by
  unfold containsT at h ⊢
  unfold treeRemove
  rcases List.any_eq_true.mp h with ⟨p, hp, hpx⟩
  have hx : p.1 = x := by simpa using hpx
  apply List.any_eq_true.mpr
  refine ⟨p, List.mem_filter.mpr ⟨hp, ?_⟩, hpx⟩
  exact bne_iff_ne.mpr (by rw [hx]; exact hne)

theorem cacheSubTree_set (s : SledState) (k v : String)
    (h : cacheSubTree s = true) : cacheSubTree (set s k v false).2 = true := by
  rw [set_false_eq]
  unfold cacheSubTree at h ⊢
  rw [List.all_eq_true] at h ⊢
  intro p hp
  have hp2 : p ∈ cachePut s.cap s.cache k v := hp
  rcases subset_of_mem_cachePut hp2 with h1 | h1
  · subst h1
    exact containsT_of_treeFind (treeFind_treeInsert_self s.tree k (Stored.txt v))
  · exact containsT_treeInsert_of (h p h1)

theorem cacheSubTree_get (s : SledState) (k : String) (f : Bool)
    (h : cacheSubTree s = true) : cacheSubTree (get s k f).2 = true := by
  cases hc : cacheLookup s.cache k with
  | some v =>
    have hst : (get s k f).2 = { s with cache := cachePromote s.cache k v } := by
      simp [get, get_internal, hc]
    rw [hst]
    unfold cacheSubTree at h ⊢
    rw [List.all_eq_true] at h ⊢
    intro p hp
    have hp2 : p ∈ cachePromote s.cache k v := hp
    rcases subset_of_mem_cachePromote hp2 with h1 | h1
    · subst h1
      exact h (k, v) (cacheLookup_some_key hc)
    · exact h p h1
  | none =>
    cases f with
    | true =>
      have hst : (get s k true).2 = s := by simp [get, get_internal, hc]
      rw [hst]; exact h
    | false =>
      cases ht : treeFind s.tree k with
      | none =>
        have hst : (get s k false).2 = s := by simp [get, get_internal, hc, ht]
        rw [hst]; exact h
      | some st =>
        cases st with
        | bin =>
          have hst : (get s k false).2 = s := by
            simp [get, get_internal, hc, ht]
          rw [hst]; exact h
        | txt v =>
          have hst : (get s k false).2 =
              { s with cache := cachePut s.cap s.cache k v } := by
            simp [get, get_internal, hc, ht]
          rw [hst]
          unfold cacheSubTree at h ⊢
          rw [List.all_eq_true] at h ⊢
          intro p hp
          have hp2 : p ∈ cachePut s.cap s.cache k v := hp
          rcases subset_of_mem_cachePut hp2 with h1 | h1
          · subst h1
            exact containsT_of_treeFind ht
          · exact h p h1

theorem cacheSubTree_delete (s : SledState) (k : String)
    (h : cacheSubTree s = true) : cacheSubTree (delete s k false).2 = true := by
  rw [delete_false_eq]
  unfold cacheSubTree at h ⊢
  rw [List.all_eq_true] at h ⊢
  intro p hp
  have hp2 : p ∈ List.filter (fun q => q.1 != k) s.cache := hp
  have hmem := (List.mem_filter.mp hp2).1
  have hne : p.1 ≠ k := by
    have h3 := (List.mem_filter.mp hp2).2
    simpa [bne_iff_ne] using h3
  exact containsT_treeRemove_of (h p hmem) hne

theorem cacheSubTree_truncate (s : SledState) (f : Bool) :
    cacheSubTree (truncate s f).2 = true := by
  cases f <;> rfl

/-- C2: the invariant that every key in the bounded cache is also present
in the durable tree is preserved by each operation run sequentially to
successful completion: `get` (with or without a read fault, which leaves
the state unchanged), fault-free `set`, fault-free `delete`, and
`truncate`. -/
theorem cache_subset_invariant_preserved (s : SledState)
    (kg ks kd v : String) (f : Bool) (h : cacheSubTree s = true) :
    cacheSubTree (get s kg f).2 = true ∧
    cacheSubTree (set s ks v false).2 = true ∧
    cacheSubTree (delete s kd false).2 = true ∧
    cacheSubTree (truncate s false).2 = true :=
  ⟨cacheSubTree_get s kg f h, cacheSubTree_set s ks v h,
    cacheSubTree_delete s kd h, cacheSubTree_truncate s false⟩

theorem cache_subset_invariant_preserved_witness :
    cacheSubTree sAB = true ∧
    (cacheSubTree (get sAB "b" false).2 = true ∧
      cacheSubTree (set sAB "c" "2" false).2 = true ∧
      cacheSubTree (delete sAB "a" false).2 = true ∧
      cacheSubTree (truncate sAB false).2 = true) :=
  ⟨by decide, cache_subset_invariant_preserved sAB "b" "c" "a" "2" false (by decide)⟩

theorem get_frame_property_witness :
    cacheLookup (freshState 2).cache "x" = none ∧
    treeFind (freshState 2).tree "x" = none ∧
    (get (freshState 2) "x" false).2 = freshState 2 :=
  ⟨by decide, by decide,
    (get_frame_property (freshState 2) "x" false).2.2 (by decide) (by decide)⟩

/-! ## Numeric read-modify-write operators (C4) -/

theorem wrap64_of_inI64 {n : Int} (h : inI64 n) : wrap64 n = n := by
  unfold inI64 at h
  unfold wrap64
  have e63 : (2 : Int) ^ 63 = 9223372036854775808 := by norm_num
  have e64 : (2 : Int) ^ 64 = 18446744073709551616 := by norm_num
  rw [e63, e64] at *
  rw [Int.emod_eq_of_lt (by omega) (by omega)]
  omega

theorem increment_false_fst (s : SledState) (k : String) (amount : Option Int) :
    (increment s k amount false false).1 =
      Except.ok (wrap64 (currentOf s k + amount.getD 1)) :=
  rfl

theorem increment_false_snd (s : SledState) (k : String) (amount : Option Int) :
    (increment s k amount false false).2 =
      (set (get s k false).2 k
        (toString (wrap64 (currentOf s k + amount.getD 1))) false).2 :=
  rfl

theorem decrement_false_fst (s : SledState) (k : String) (amount : Option Int) :
    (decrement s k amount false false).1 =
      Except.ok (wrap64 (currentOf s k - amount.getD 1)) :=
  rfl

theorem decrement_false_snd (s : SledState) (k : String) (amount : Option Int) :
    (decrement s k amount false false).2 =
      (set (get s k false).2 k
        (toString (wrap64 (currentOf s k - amount.getD 1))) false).2 :=
  rfl

/-- C4: in a fault-free sequential run, `increment(k, a)` parses the
current stored value as a signed integer (missing or unparsable treated as
0), adds the amount (1 when absent), stores the textual result (a
subsequent `get` reads it back) and returns the new value; `decrement` is
symmetric.  In particular `increment(k, None)` on an absent key returns 1,
and `increment(k, Some 5)` then `increment(k, None)` on a fresh key yields
5 then 6.  The hypotheses keep the `i64` addition of the source from
wrapping. -/
theorem increment_decrement_read_modify_write (s : SledState) (k : String)
    (amount : Option Int)
    (h1 : inI64 (currentOf s k + amount.getD 1))
    (h2 : inI64 (currentOf s k - amount.getD 1)) :
    (increment s k amount false false).1 =
      Except.ok (currentOf s k + amount.getD 1) ∧
    (get (increment s k amount false false).2 k false).1 =
      some (toString (currentOf s k + amount.getD 1)) ∧
    (decrement s k amount false false).1 =
      Except.ok (currentOf s k - amount.getD 1) ∧
    (get (decrement s k amount false false).2 k false).1 =
      some (toString (currentOf s k - amount.getD 1)) ∧
    (increment (freshState 1000) "ctr" none false false).1 = Except.ok 1 ∧
    (increment (freshState 1000) "ctr" (some 5) false false).1 = Except.ok 5 ∧
    (increment (increment (freshState 1000) "ctr" (some 5) false false).2
      "ctr" none false false).1 = Except.ok 6 := by
  have hw1 := wrap64_of_inI64 h1
  have hw2 := wrap64_of_inI64 h2
  refine ⟨?_, ?_, ?_, ?_, by decide, by decide, by decide⟩
  · rw [increment_false_fst, hw1]
  · rw [increment_false_snd, hw1, get_after_set_fst]
  · rw [decrement_false_fst, hw2]
  · rw [decrement_false_snd, hw2, get_after_set_fst]

theorem increment_decrement_read_modify_write_witness :
    inI64 (currentOf sAB "a" + 5) ∧ inI64 (currentOf sAB "a" - 5) ∧
    ((increment sAB "a" (some 5) false false).1 =
        Except.ok (currentOf sAB "a" + 5) ∧
      (get (increment sAB "a" (some 5) false false).2 "a" false).1 =
        some (toString (currentOf sAB "a" + 5))) :=
  ⟨by decide, by decide,
    ⟨(increment_decrement_read_modify_write sAB "a" (some 5)
        (by decide) (by decide)).1,
      (increment_decrement_read_modify_write sAB "a" (some 5)
        (by decide) (by decide)).2.1⟩⟩

/-! ## Factory cache-capacity derivation (C5) -/

/-- C5: for every persistent-engine configuration whose megabyte budget
does not overflow `usize`, the factory derives the cache capacity as
`cache_size_mb * 1024`, floored at a minimum of 100 entries; the floor at
100 holds for every configuration, and concretely `cache_size_mb = 1`
yields 1024 while `cache_size_mb = 0` yields 100. -/
theorem factory_cache_capacity_derivation (c : StorageConfig)
    (h : c.cache_size_mb * 1024 * 1024 < 2 ^ 64) :
    (sledConfigOf c).cache_size = Nat.max (c.cache_size_mb * 1024) 100 ∧
    (∀ c2 : StorageConfig, 100 ≤ (sledConfigOf c2).cache_size) ∧
    (sledConfigOf { StorageConfig.default with cache_size_mb := 1 }).cache_size
      = 1024 ∧
    (sledConfigOf { StorageConfig.default with cache_size_mb := 0 }).cache_size
      = 100 := by
  refine ⟨?_, ?_, by decide, by decide⟩
  · unfold sledConfigOf usizeWrap
    simp only
    rw [Nat.mod_eq_of_lt h]
    rw [Nat.mul_div_cancel _ (by norm_num : 0 < 1024)]
  · intro c2
    exact Nat.le_max_right _ _

theorem factory_cache_capacity_derivation_witness :
    StorageConfig.default.cache_size_mb * 1024 * 1024 < 2 ^ 64 ∧
    (sledConfigOf StorageConfig.default).cache_size =
      Nat.max (StorageConfig.default.cache_size_mb * 1024) 100 :=
  ⟨by decide,
    (factory_cache_capacity_derivation StorageConfig.default (by decide)).1⟩

/-! ## `get` downgrades faults to absence (C6) -/

/-- C6: the trait `get` never signals an error: whenever the internal
lookup fails, `get` returns `none` (indistinguishable from an absent key,
and with the same post-state as the internal lookup); `get` returns
`some v` exactly when the internal lookup succeeds with `Some(v)`. -/
theorem get_swallows_faults (s : SledState) (k : String) (f : Bool) :
    (∀ e, (get_internal s k f).1 = Except.error e → (get s k f).1 = none) ∧
    (∀ v, (get s k f).1 = some v ↔
      (get_internal s k f).1 = Except.ok (some v)) ∧
    (get s k f).2 = (get_internal s k f).2 := by
  rcases hh : get_internal s k f with ⟨r, s2⟩
  cases r with
  | ok v =>
    refine ⟨?_, ?_, ?_⟩
    · intro e he
      exact Except.noConfusion he
    · intro w
      simp [get, hh]
    · simp [get, hh]
  | error e =>
    refine ⟨?_, ?_, ?_⟩
    · intro e2 he
      simp [get, hh]
    · intro w
      simp [get, hh]
    · simp [get, hh]

theorem get_swallows_faults_witness :
    (get_internal ⟨2, [], [("k", Stored.bin)]⟩ "k" false).1 =
      Except.error "Invalid UTF-8 in value for key k" ∧
    (get ⟨2, [], [("k", Stored.bin)]⟩ "k" false).1 = none :=
  ⟨by decide,
    (get_swallows_faults ⟨2, [], [("k", Stored.bin)]⟩ "k" false).1
      "Invalid UTF-8 in value for key k" (by decide)⟩

/-! ## Construction-time capacity check (C8) -/

/-- C8: constructing the persistent engine requires a positive cache
capacity: with `cache_size = 0` every `with_config` run fails (and, when
the database and tree open fine, fails exactly with
"Cache size must be greater than 0"), while for every positive capacity
the `NonZeroUsize` check succeeds and fault-free construction produces an
engine with that capacity and an empty cache. -/
theorem with_config_requires_positive_cache (openFault treeFault : Bool)
    (tree0 : List (String × Stored)) (cfg good : SledConfig)
    (h0 : cfg.cache_size = 0) (h1 : 0 < good.cache_size) :
    exOk (with_config openFault treeFault tree0 cfg) = false ∧
    with_config false false tree0 cfg =
      Except.error "Cache size must be greater than 0" ∧
    nonZeroUsizeNew good.cache_size = some good.cache_size ∧
    with_config false false tree0 good =
      Except.ok ⟨good.cache_size, [], tree0⟩ := by
  have hne : good.cache_size ≠ 0 := Nat.pos_iff_ne_zero.mp h1
  refine ⟨?_, ?_, ?_, ?_⟩
  · unfold with_config
    cases openFault
    · cases treeFault
      · simp [nonZeroUsizeNew, h0, exOk]
      · simp [exOk]
    · simp [exOk]
  · unfold with_config
    simp [nonZeroUsizeNew, h0]
  · unfold nonZeroUsizeNew
    rw [if_neg hne]
  · unfold with_config
    simp [nonZeroUsizeNew, hne]

theorem with_config_requires_positive_cache_witness :
    ({ compression := true, cache_size := 0, flush_interval_ms := 1000,
        max_db_size := 1024 } : SledConfig).cache_size = 0 ∧
    0 < SledConfig.default.cache_size ∧
    with_config false false []
      { compression := true, cache_size := 0, flush_interval_ms := 1000,
        max_db_size := 1024 } =
      Except.error "Cache size must be greater than 0" :=
  ⟨rfl, by decide,
    (with_config_requires_positive_cache false false []
      { compression := true, cache_size := 0, flush_interval_ms := 1000,
        max_db_size := 1024 }
      SledConfig.default rfl (by decide)).2.1⟩

/-! ## String-named factory entry point (C3)

The claim says the accepted names are {memory, rwlock/locked, persistent}
(case-insensitive, `kv` aliased to memory).  The code instead matches the
lowercased name against the literals `"memory" | "kv"`, `"rwlock"` and
`"sled"`: the names `"locked"` and `"persistent"` are rejected with the
enumerated-choices error, and `"sled"` — absent from the claim's set — is
accepted. -/

/-- C3 (counterexample to the claim as stated): `"persistent"` is in the
claim's accepted set, yet `create_storage_engine_simple` rejects it (and
accepts `"sled"`, which the claim's set omits). -/
theorem simple_factory_rejects_persistent :
    exOk (create_storage_engine_simple "persistent" "./data") = false ∧
    exOk (create_storage_engine_simple "locked" "./data") = false ∧
    exOk (create_storage_engine_simple "sled" "./data") = true := by
  decide

theorem create_storage_engine_sled_eq (c : StorageConfig)
    (h : c.engine = StorageEngine.sled) :
    create_storage_engine c =
      match with_config false false [] (sledConfigOf c) with
      | Except.ok st => Except.ok (Engine.sled c.path st (sledConfigOf c))
      | Except.error e => Except.error e := by
  unfold create_storage_engine
  rw [h]

theorem exOk_create_sled (c : StorageConfig)
    (h : c.engine = StorageEngine.sled) :
    exOk (create_storage_engine c) = true := by
  rw [create_storage_engine_sled_eq c h]
  have hfloor : 100 ≤ (sledConfigOf c).cache_size := Nat.le_max_right _ _
  have hpos : (sledConfigOf c).cache_size ≠ 0 := by omega
  have hwc : with_config false false [] (sledConfigOf c) =
      Except.ok ⟨(sledConfigOf c).cache_size, [], []⟩ := by
    simp [with_config, nonZeroUsizeNew, hpos]
  rw [hwc]
  rfl

/-- C3 (amended): `create_storage_engine_simple(name, path)` succeeds
exactly when the lowercased name is one of `memory`, `kv`, `rwlock`,
`sled`; for every other name it returns the error
`"Unknown engine type: {name}. Available engines: memory, rwlock, sled"`. -/
theorem simple_factory_name_dispatch (et p : String) :
    (exOk (create_storage_engine_simple et p) = true ↔
      (strToLower et = "memory" ∨ strToLower et = "kv" ∨
        strToLower et = "rwlock" ∨ strToLower et = "sled")) ∧
    (¬(strToLower et = "memory" ∨ strToLower et = "kv" ∨
        strToLower et = "rwlock" ∨ strToLower et = "sled") →
      create_storage_engine_simple et p =
        Except.error ("Unknown engine type: " ++ et ++
          ". Available engines: memory, rwlock, sled")) := by
  unfold create_storage_engine_simple
  by_cases h1 : strToLower et = "memory" ∨ strToLower et = "kv"
  · rw [if_pos h1]
    constructor
    · exact iff_of_true rfl (by tauto)
    · intro hc
      exact absurd (by tauto) hc
  · rw [if_neg h1]
    by_cases h2 : strToLower et = "rwlock"
    · rw [if_pos h2]
      constructor
      · exact iff_of_true rfl (by tauto)
      · intro hc
        exact absurd (by tauto) hc
    · rw [if_neg h2]
      by_cases h3 : strToLower et = "sled"
      · rw [if_pos h3]
        constructor
        · exact iff_of_true (exOk_create_sled _ rfl) (by tauto)
        · intro hc
          exact absurd (by tauto) hc
      · rw [if_neg h3]
        constructor
        · refine iff_of_false (by simp [exOk]) ?_
          intro hc
          rcases hc with hc | hc | hc | hc
          · exact h1 (Or.inl hc)
          · exact h1 (Or.inr hc)
          · exact h2 hc
          · exact h3 hc
        · intro _
          rfl

theorem simple_factory_name_dispatch_witness :
    ¬(strToLower "Persistent" = "memory" ∨ strToLower "Persistent" = "kv" ∨
        strToLower "Persistent" = "rwlock" ∨ strToLower "Persistent" = "sled") ∧
    create_storage_engine_simple "Persistent" "./data" =
      Except.error
        "Unknown engine type: Persistent. Available engines: memory, rwlock, sled" :=
  ⟨by decide,
    (simple_factory_name_dispatch "Persistent" "./data").2 (by decide)⟩

end MerkleKV
